import Mathlib

/-!
Verification of the ABC-music-notation panel app (`src/intents/design_editor/app.tsx`).

Strings of the host language are modelled as `List Char`.  The three program
pieces embedded here are the input normalizer `normalizeAbcInput`, the
classifier `hasNotes`, and the export handler `handleAddToDesign` together
with its SVG post-processing and data-URL encoding steps.
-/

/-- The JavaScript whitespace set recognised by `trimStart` / `trim`:
tab, LF, VT, FF, CR, space, NBSP, the Unicode space separators,
the line/paragraph separators and the BOM. -/
def isWS (c : Char) : Bool :=
  let n := c.toNat
  (decide (9 ≤ n) && decide (n ≤ 13)) || n == 32 || n == 0xA0 || n == 0x1680 ||
    (decide (0x2000 ≤ n) && decide (n ≤ 0x200A)) || n == 0x2028 || n == 0x2029 ||
    n == 0x202F || n == 0x205F || n == 0x3000 || n == 0xFEFF

/-- `String.prototype.trimStart`: drop leading whitespace. -/
def trimStart (l : List Char) : List Char :=
  l.dropWhile isWS

/-- `String.prototype.trim`: drop leading and trailing whitespace. -/
def trim (l : List Char) : List Char :=
  ((trimStart l).reverse.dropWhile isWS).reverse

/-- Prepend a character to the first piece of a piece list. -/
def consLine (c : Char) : List (List Char) → List (List Char)
  | [] => [[c]]
  | l :: ls => (c :: l) :: ls

/-- `input.split("\n")` for a single-character separator: always returns at
least one piece, pieces contain no newline. -/
def splitLines : List Char → List (List Char)
  | [] => [[]]
  | c :: cs =>
    if c = '\n' then [] :: splitLines cs
    else consLine c (splitLines cs)

/-- `pieces.join("\n")`. -/
def joinLines : List (List Char) → List Char
  | [] => []
  | [l] => l
  | l :: ls => l ++ '\n' :: joinLines ls

/-- `normalizeAbcInput` from the app: split on newline, strip leading
whitespace from every line, re-join with newline. -/
def normalizeAbcInput (input : List Char) : List Char :=
  joinLines ((splitLines input).map (fun line => trimStart line))

theorem splitLines_ne_nil (s : List Char) : splitLines s ≠ [] := by
  cases s with
  | nil => simp [splitLines]
  | cons c cs =>
    simp only [splitLines]
    split
    · simp
    · rcases hh : splitLines cs with _ | ⟨l, ls⟩ <;> simp [consLine, hh]

theorem no_newline_mem_splitLines (s : List Char) :
    ∀ l ∈ splitLines s, '\n' ∉ l := by
  induction s with
  | nil => simp [splitLines]
  | cons c cs ih =>
    intro l hl
    simp only [splitLines] at hl
    by_cases hc : c = '\n'
    · rw [if_pos hc] at hl
      rcases List.mem_cons.mp hl with h | h
      · simp [h]
      · exact ih l h
    · rw [if_neg hc] at hl
      rcases hh : splitLines cs with _ | ⟨l0, ls0⟩
      · exact absurd hh (splitLines_ne_nil cs)
      · rw [hh] at hl
        simp only [consLine] at hl
        rcases List.mem_cons.mp hl with h | h
        · subst h
          intro hmem
          rcases List.mem_cons.mp hmem with h | h
          · exact hc h.symm
          · exact ih l0 (by rw [hh]; exact List.mem_cons_self _ _) h
        · exact ih l (by rw [hh]; exact List.mem_cons_of_mem _ h)

theorem splitLines_append (l s : List Char) (h : '\n' ∉ l) :
    splitLines (l ++ s)
      = (l ++ (splitLines s).headD []) :: (splitLines s).tail := by
  induction l with
  | nil =>
    rcases hh : splitLines s with _ | ⟨l0, ls0⟩
    · exact absurd hh (splitLines_ne_nil s)
    · simp [hh]
  | cons c l' ih =>
    have hc : c ≠ '\n' := fun hc => h (by simp [hc])
    have h' : '\n' ∉ l' := fun hm => h (List.mem_cons_of_mem _ hm)
    have : splitLines (c :: l' ++ s) = consLine c (splitLines (l' ++ s)) := by
      simp [splitLines, if_neg hc]
    rw [this, ih h']
    simp [consLine]

theorem splitLines_newline_cons (s : List Char) :
    splitLines ('\n' :: s) = [] :: splitLines s := by
  simp [splitLines]

theorem splitLines_joinLines (ls : List (List Char)) (h1 : ls ≠ [])
    (h2 : ∀ l ∈ ls, '\n' ∉ l) : splitLines (joinLines ls) = ls := by
  induction ls with
  | nil => exact absurd rfl h1
  | cons l ls' ih =>
    cases ls' with
    | nil =>
      have hl : '\n' ∉ l := h2 l (List.mem_cons_self _ _)
      have := splitLines_append l [] hl
      simpa [joinLines, splitLines] using this
    | cons l2 ls'' =>
      have hl : '\n' ∉ l := h2 l (List.mem_cons_self _ _)
      have hrec : splitLines (joinLines (l2 :: ls'')) = l2 :: ls'' :=
        ih (by simp) (fun x hx => h2 x (List.mem_cons_of_mem _ hx))
      have hjoin : joinLines (l :: l2 :: ls'') = l ++ '\n' :: joinLines (l2 :: ls'') := by
        simp [joinLines]
      rw [hjoin, splitLines_append l _ hl, splitLines_newline_cons, hrec]
      simp

theorem trimStart_no_newline (l : List Char) (h : '\n' ∉ l) :
    '\n' ∉ trimStart l :=
  fun hm => h ((List.dropWhile_sublist _).subset hm)

theorem splitLines_normalizeAbcInput (s : List Char) :
    splitLines (normalizeAbcInput s) = (splitLines s).map trimStart := by
  unfold normalizeAbcInput
  have h1 : (splitLines s).map (fun line => trimStart line) ≠ [] := by
    simpa using splitLines_ne_nil s
  have h2 : ∀ l ∈ (splitLines s).map (fun line => trimStart line), '\n' ∉ l := by
    intro l hl
    rcases List.mem_map.mp hl with ⟨l0, hl0, rfl⟩
    exact trimStart_no_newline l0 (no_newline_mem_splitLines s l0 hl0)
  rw [splitLines_joinLines _ h1 h2]

theorem trimStart_idem (l : List Char) : trimStart (trimStart l) = trimStart l := by
  induction l with
  | nil => rfl
  | cons c cs ih =>
    by_cases h : isWS c
    · simpa [trimStart, List.dropWhile_cons, h] using ih
    · simp [trimStart, List.dropWhile_cons, h]

/-- C2: the normalizer is a pure total function whose output has the same
line count as the input, whose lines are the input lines with leading
whitespace removed and everything else preserved, re-joined with the same
line-break convention. -/
theorem normalizeAbcInput_spec (s : List Char) :
    (splitLines (normalizeAbcInput s)).length = (splitLines s).length ∧
    (∀ i (hi : i < (splitLines (normalizeAbcInput s)).length)
        (hj : i < (splitLines s).length),
        (splitLines (normalizeAbcInput s)).get ⟨i, hi⟩
          = trimStart ((splitLines s).get ⟨i, hj⟩)) ∧
    normalizeAbcInput s = joinLines ((splitLines s).map trimStart) := by
  refine ⟨?_, ?_, ?_⟩
  · rw [splitLines_normalizeAbcInput]; simp
  · intro i hi hj
    have h := splitLines_normalizeAbcInput s
    simp only [List.get_eq_getElem]
    simp only [h, List.getElem_map]
  · rfl

/-- C2 witness: evaluation at the concrete input `"  X:1\n  abc"`. -/
theorem normalizeAbcInput_spec_witness :
    (splitLines (normalizeAbcInput ("  X:1\n  abc".toList))).get ⟨1, by decide⟩
      = trimStart ((splitLines ("  X:1\n  abc".toList)).get ⟨1, by decide⟩) :=
  (normalizeAbcInput_spec ("  X:1\n  abc".toList)).2.1 1 (by decide) (by decide)

/-- C3: normalization is idempotent. -/
theorem normalizeAbcInput_idem (s : List Char) :
    normalizeAbcInput (normalizeAbcInput s) = normalizeAbcInput s := by
  have h1 := splitLines_normalizeAbcInput s
  have hcomp : ((fun line => trimStart line) ∘ trimStart) = fun line => trimStart line := by
    funext l
    simp only [Function.comp_apply]
    exact trimStart_idem l
  calc normalizeAbcInput (normalizeAbcInput s)
      = joinLines (((splitLines s).map trimStart).map (fun line => trimStart line)) := by
        show joinLines ((splitLines (normalizeAbcInput s)).map (fun line => trimStart line)) = _
        rw [h1]
    _ = joinLines ((splitLines s).map (fun line => trimStart line)) := by
        rw [List.map_map, hcomp]
    _ = normalizeAbcInput s := rfl

/-- `trimmed.startsWith(p)` for the two-character field labels used by the
classifier. -/
def startsWith2 (a b : Char) : List Char → Bool
  | c :: d :: _ => c == a && d == b
  | _ => false

/-- `hasNotes` from the app: some line, once trimmed, is non-empty and does
not start with one of the fixed set of header-field labels nor with the
`%%` directive marker. -/
def hasNotes (s : List Char) : Bool :=
  (splitLines s).any fun line =>
    let trimmed := trim line
    !trimmed.isEmpty &&
    !startsWith2 'X' ':' trimmed &&
    !startsWith2 'T' ':' trimmed &&
    !startsWith2 'M' ':' trimmed &&
    !startsWith2 'L' ':' trimmed &&
    !startsWith2 'K' ':' trimmed &&
    !startsWith2 'C' ':' trimmed &&
    !startsWith2 'Q' ':' trimmed &&
    !startsWith2 'R' ':' trimmed &&
    !startsWith2 'N' ':' trimmed &&
    !startsWith2 'H' ':' trimmed &&
    !startsWith2 'S' ':' trimmed &&
    !startsWith2 'O' ':' trimmed &&
    !startsWith2 'B' ':' trimmed &&
    !startsWith2 'D' ':' trimmed &&
    !startsWith2 'Z' ':' trimmed &&
    !startsWith2 'G' ':' trimmed &&
    !startsWith2 'F' ':' trimmed &&
    !startsWith2 'P' ':' trimmed &&
    !startsWith2 'I' ':' trimmed &&
    !startsWith2 'W' ':' trimmed &&
    !startsWith2 'w' ':' trimmed &&
    !startsWith2 'V' ':' trimmed &&
    !startsWith2 '%' '%' trimmed

/-- A line is header-like when, after trimming, it is empty or starts with
one of the recognised field labels or the `%%` directive marker. -/
def isHeaderLike (line : List Char) : Bool :=
  let t := trim line
  t.isEmpty ||
    startsWith2 'X' ':' t || startsWith2 'T' ':' t || startsWith2 'M' ':' t ||
    startsWith2 'L' ':' t || startsWith2 'K' ':' t || startsWith2 'C' ':' t ||
    startsWith2 'Q' ':' t || startsWith2 'R' ':' t || startsWith2 'N' ':' t ||
    startsWith2 'H' ':' t || startsWith2 'S' ':' t || startsWith2 'O' ':' t ||
    startsWith2 'B' ':' t || startsWith2 'D' ':' t || startsWith2 'Z' ':' t ||
    startsWith2 'G' ':' t || startsWith2 'F' ':' t || startsWith2 'P' ':' t ||
    startsWith2 'I' ':' t || startsWith2 'W' ':' t || startsWith2 'w' ':' t ||
    startsWith2 'V' ':' t || startsWith2 '%' '%' t

theorem hasNotes_eq_any_not_headerLike (s : List Char) :
    hasNotes s = (splitLines s).any fun l => !isHeaderLike l := by
  unfold hasNotes isHeaderLike
  congr 1
  funext line
  simp only [Bool.not_or]

theorem trim_trimStart (l : List Char) : trim (trimStart l) = trim l := by
  unfold trim
  rw [trimStart_idem]

/-- C1: applied to normalized text, the classifier returns valid iff some
line is not header-like; header-only (and blank) inputs are invalid however
many lines they have and in any order, and an input with exactly one
non-header, non-blank line among arbitrary header lines is valid. -/
theorem hasNotes_valid_iff :
    (∀ s : List Char, hasNotes (normalizeAbcInput s) = true ↔
      ∃ l ∈ splitLines (normalizeAbcInput s), isHeaderLike l = false) ∧
    (∀ s : List Char,
      (∀ l ∈ splitLines (normalizeAbcInput s), isHeaderLike l = true) →
      hasNotes (normalizeAbcInput s) = false) ∧
    (∀ s : List Char,
      (splitLines (normalizeAbcInput s)).countP (fun l => !isHeaderLike l) = 1 →
      hasNotes (normalizeAbcInput s) = true) := by
  have key : ∀ t : List Char, hasNotes t = true ↔
      ∃ l ∈ splitLines t, isHeaderLike l = false := by
    intro t
    rw [hasNotes_eq_any_not_headerLike, List.any_eq_true]
    simp only [Bool.not_eq_true']
  refine ⟨fun s => key (normalizeAbcInput s), ?_, ?_⟩
  · intro s hall
    rw [← Bool.not_eq_true, key]
    rintro ⟨l, hl, hfalse⟩
    rw [hall l hl] at hfalse
    simp at hfalse
  · intro s hcount
    rw [key]
    have hpos : 0 < (splitLines (normalizeAbcInput s)).countP (fun l => !isHeaderLike l) := by
      omega
    rcases List.countP_pos_iff.mp hpos with ⟨l, hl, hp⟩
    exact ⟨l, hl, by simpa using hp⟩

/-- C1 witness: a header-only tune is invalid, applied at a concrete input. -/
theorem hasNotes_valid_iff_witness :
    hasNotes (normalizeAbcInput ("X:1\nT:Test\nM:4/4\nK:C\n".toList)) = false :=
  hasNotes_valid_iff.2.1 ("X:1\nT:Test\nM:4/4\nK:C\n".toList) (by decide)

theorem not_headerLike_of_comment (l : List Char)
    (h1 : (trim l).head? = some '%') (h2 : (trim l).tail.head? ≠ some '%') :
    isHeaderLike l = false := by
  rcases htr : trim l with _ | ⟨c, rest⟩
  · rw [htr] at h1
    simp at h1
  · rw [htr] at h1 h2
    simp only [List.head?_cons, Option.some.injEq] at h1
    subst h1
    cases rest with
    | nil => simp [isHeaderLike, htr, startsWith2]
    | cons d rest' =>
      have hd : d ≠ '%' := by simpa using h2
      simp [isHeaderLike, htr, startsWith2, hd]

/-- C10: an ABC comment line — non-blank, starting after trimming with a
single `%` not followed by a second `%` — is treated as renderable content:
the classifier returns valid on any input containing such a line. -/
theorem hasNotes_of_comment_line (s : List Char)
    (h : ∃ l ∈ splitLines s,
      (trim l).head? = some '%' ∧ (trim l).tail.head? ≠ some '%') :
    hasNotes (normalizeAbcInput s) = true := by
  obtain ⟨l, hl, h1, h2⟩ := h
  rw [hasNotes_eq_any_not_headerLike, List.any_eq_true]
  refine ⟨trimStart l, ?_, ?_⟩
  · rw [splitLines_normalizeAbcInput]
    exact List.mem_map.mpr ⟨l, hl, rfl⟩
  · have hfl := not_headerLike_of_comment (trimStart l)
      (by rw [trim_trimStart]; exact h1) (by rw [trim_trimStart]; exact h2)
    simp [hfl]

/-- C10 witness: a tune whose only non-header line is the comment `% hi`. -/
theorem hasNotes_of_comment_line_witness :
    hasNotes (normalizeAbcInput ("X:1\nK:C\n  % hi".toList)) = true :=
  hasNotes_of_comment_line ("X:1\nK:C\n  % hi".toList) (by decide)

/-- Geometry returned by `svgElement.getBBox()`, coordinates as rationals. -/
structure BBox where
  x : ℚ
  y : ℚ
  w : ℚ
  h : ℚ
  deriving DecidableEq

/-- Geometry of a viewBox or of the injected rectangle. -/
structure Rect where
  x : ℚ
  y : ℚ
  w : ℚ
  h : ℚ
  deriving DecidableEq

/-- A child node of the exported SVG: the injected background rectangle
with its fill colour, or one of the renderer-produced nodes (opaque). -/
inductive SvgChild
  | bg (r : Rect) (fill : List Char)
  | content (id : Nat)
  deriving DecidableEq

/-- The cloned SVG after the export rewrite: width/height attributes,
viewBox, and child list. -/
structure SvgExport where
  width : ℚ
  height : ℚ
  viewBox : Rect
  children : List SvgChild
  deriving DecidableEq

/-- The fixed export padding (`const padding = 20`). -/
def padding : ℚ := 20

/-- Lines 134–165 of the handler: clone, measure the content bounding box,
rewrite width/height/viewBox to the padded box, and insert the white
background rectangle as the first child. -/
def exportSvg (bbox : BBox) (orig : List SvgChild) : SvgExport :=
  let width := bbox.w + padding * 2
  let height := bbox.h + padding * 2
  let viewBoxX := bbox.x - padding
  let viewBoxY := bbox.y - padding
  { width := width, height := height,
    viewBox := ⟨viewBoxX, viewBoxY, width, height⟩,
    children :=
      SvgChild.bg ⟨viewBoxX, viewBoxY, width, height⟩ ("#ffffff".toList) :: orig }

/-- The two alert messages the handler can set. -/
inductive ErrMsg
  | noSheetMusic
  | addFailed
  deriving DecidableEq

/-- Outcome of the `abcjs.renderAbc` call on the export container. -/
inductive RenderResult
  | throws
  | noSvg
  | ok
  deriving DecidableEq

/-- The host environment of one invocation: detected insertion capability,
export container presence, renderer behaviour and host-call outcomes. -/
structure Env where
  addElement : Bool
  exportRefPresent : Bool
  render : RenderResult
  bbox : BBox
  origChildren : List SvgChild
  uploadOk : Bool
  insertOk : Bool
  deriving DecidableEq

/-- The app's `useState` cells.  `hasValidTune` is the app's validity flag
(named `hasValidNotation` in the source). -/
structure AppState where
  abcInput : List Char
  isLoading : Bool
  error : Option ErrMsg
  hasValidTune : Bool
  deriving DecidableEq

/-- Externally observable calls made by one handler invocation. -/
inductive Event
  | renderCall
  | uploadCall (svg : SvgExport)
  | insertCall
  deriving DecidableEq

/-- Whether the invocation returned normally or escaped with an uncaught
exception. -/
inductive Outcome
  | normal
  | threw
  deriving DecidableEq

/-- `handleAddToDesign`: entry guard on capability and export container;
render (outside the try block, so a throwing renderer escapes); missing-SVG
check; then the try/catch/finally around upload and insertion. -/
def handleAddToDesign (env : Env) (s : AppState) : AppState × List Event × Outcome :=
  if !env.addElement || !env.exportRefPresent then (s, [], Outcome.normal)
  else
    match env.render with
    | RenderResult.throws => (s, [Event.renderCall], Outcome.threw)
    | RenderResult.noSvg =>
        ({ s with error := some ErrMsg.noSheetMusic }, [Event.renderCall], Outcome.normal)
    | RenderResult.ok =>
        let svg := exportSvg env.bbox env.origChildren
        if !env.uploadOk then
          ({ s with error := some ErrMsg.addFailed, isLoading := false },
            [Event.renderCall, Event.uploadCall svg], Outcome.normal)
        else if !env.insertOk then
          ({ s with error := some ErrMsg.addFailed, isLoading := false },
            [Event.renderCall, Event.uploadCall svg, Event.insertCall], Outcome.normal)
        else
          ({ s with error := none, isLoading := false },
            [Event.renderCall, Event.uploadCall svg, Event.insertCall], Outcome.normal)

/-- `disabled={!addElement || isLoading || !hasValidNotation}` on the
add-to-design button. -/
def buttonDisabled (env : Env) (s : AppState) : Bool :=
  !env.addElement || s.isLoading || !s.hasValidTune

/-- A user click on the add-to-design button: a disabled button never
invokes the handler. -/
def clickAddToDesign (env : Env) (s : AppState) : AppState × List Event × Outcome :=
  if buttonDisabled env s then (s, [], Outcome.normal)
  else handleAddToDesign env s

/-- C4: clicking add-to-design is a no-op — state unchanged, no render, no
upload, no insertion call, no exception — whenever no insertion capability
was detected, a previous invocation is in flight, or the classifier reports
invalid notation. -/
theorem clickAddToDesign_noop (env : Env) (s : AppState)
    (hwf : s.hasValidTune = hasNotes (normalizeAbcInput s.abcInput))
    (h : env.addElement = false ∨ s.isLoading = true ∨
      hasNotes (normalizeAbcInput s.abcInput) = false) :
    clickAddToDesign env s = (s, [], Outcome.normal) := by
  unfold clickAddToDesign buttonDisabled
  rcases h with h | h | h <;> simp [h, hwf]

/-- C4 witness: no capability detected, header-only input. -/
theorem clickAddToDesign_noop_witness :
    clickAddToDesign
      { addElement := false, exportRefPresent := true, render := RenderResult.ok,
        bbox := ⟨0, 0, 0, 0⟩, origChildren := [], uploadOk := true, insertOk := true }
      { abcInput := "X:1".toList, isLoading := false, error := none,
        hasValidTune := false }
      = ({ abcInput := "X:1".toList, isLoading := false, error := none,
            hasValidTune := false }, [], Outcome.normal) :=
  clickAddToDesign_noop _ _ (by decide) (Or.inl rfl)

/-- C5 counterexample: valid notation, renderer throws — the error message
is NOT set to the no-sheet-music message (the `renderAbc` call sits outside
the try block, so the exception escapes before any `setError`). -/
theorem handleAddToDesign_throw_counterexample :
    ((handleAddToDesign
      { addElement := true, exportRefPresent := true, render := RenderResult.throws,
        bbox := ⟨0, 0, 0, 0⟩, origChildren := [], uploadOk := true, insertOk := true }
      { abcInput := "X:1\nCDE".toList, isLoading := false, error := none,
        hasValidTune := true }).1).error ≠ some ErrMsg.noSheetMusic := by
  decide

/-- C5 amended: if the renderer produces no image node, the handler sets
the no-sheet-music message, makes no upload or insertion call and leaves
everything else — including the in-flight flag — unchanged; if the renderer
throws, the exception propagates uncaught: no message is set, no upload or
insertion call is made, and the state is unchanged. -/
theorem handleAddToDesign_render_failure (env : Env) (s : AppState)
    (h1 : env.addElement = true) (h2 : env.exportRefPresent = true) :
    (env.render = RenderResult.noSvg →
      handleAddToDesign env s
        = ({ s with error := some ErrMsg.noSheetMusic },
            [Event.renderCall], Outcome.normal)) ∧
    (env.render = RenderResult.throws →
      handleAddToDesign env s = (s, [Event.renderCall], Outcome.threw)) := by
  unfold handleAddToDesign
  constructor <;> intro hr <;> simp [h1, h2, hr]

/-- C5 amended witness: concrete no-SVG environment. -/
theorem handleAddToDesign_render_failure_witness :
    handleAddToDesign
      { addElement := true, exportRefPresent := true, render := RenderResult.noSvg,
        bbox := ⟨0, 0, 0, 0⟩, origChildren := [], uploadOk := true, insertOk := true }
      { abcInput := "X:1\nCDE".toList, isLoading := false, error := none,
        hasValidTune := true }
      = ({ abcInput := "X:1\nCDE".toList, isLoading := false,
            error := some ErrMsg.noSheetMusic, hasValidTune := true },
          [Event.renderCall], Outcome.normal) :=
  (handleAddToDesign_render_failure _ _ rfl rfl).1 rfl

/-- C6: if the upload call fails the error is the generic failure message,
the insertion call is never made, no other state (in particular no asset
reference) is retained, and the in-flight flag is false afterward; an
insertion failure after a successful upload sets the same generic
message. -/
theorem handleAddToDesign_host_failure (env : Env) (s : AppState)
    (h1 : env.addElement = true) (h2 : env.exportRefPresent = true)
    (h3 : env.render = RenderResult.ok) :
    (env.uploadOk = false →
      handleAddToDesign env s
        = ({ s with error := some ErrMsg.addFailed, isLoading := false },
            [Event.renderCall, Event.uploadCall (exportSvg env.bbox env.origChildren)],
            Outcome.normal)) ∧
    (env.uploadOk = true → env.insertOk = false →
      handleAddToDesign env s
        = ({ s with error := some ErrMsg.addFailed, isLoading := false },
            [Event.renderCall, Event.uploadCall (exportSvg env.bbox env.origChildren),
              Event.insertCall],
            Outcome.normal)) := by
  unfold handleAddToDesign
  constructor
  · intro hu
    simp [h1, h2, h3, hu]
  · intro hu hi
    simp [h1, h2, h3, hu, hi]

/-- C6 witness: concrete failing upload. -/
theorem handleAddToDesign_host_failure_witness :
    handleAddToDesign
      { addElement := true, exportRefPresent := true, render := RenderResult.ok,
        bbox := ⟨0, 0, 100, 50⟩, origChildren := [SvgChild.content 0],
        uploadOk := false, insertOk := true }
      { abcInput := "X:1\nCDE".toList, isLoading := false, error := none,
        hasValidTune := true }
      = ({ abcInput := "X:1\nCDE".toList, isLoading := false,
            error := some ErrMsg.addFailed, hasValidTune := true },
          [Event.renderCall,
            Event.uploadCall (exportSvg ⟨0, 0, 100, 50⟩ [SvgChild.content 0])],
          Outcome.normal) :=
  (handleAddToDesign_host_failure _ _ rfl rfl rfl).1 rfl

/-- C7: the rewritten viewBox has width and height exactly the content
bounding box's plus `2 × padding` (hence at least `2 × padding` larger),
its origin is the bounding-box origin shifted by the padding on each side,
and the opaque white background rectangle is the first child with geometry
exactly equal to the rewritten viewBox. -/
theorem exportSvg_geometry (bbox : BBox) (orig : List SvgChild) :
    (exportSvg bbox orig).viewBox.w = bbox.w + 2 * padding ∧
    (exportSvg bbox orig).viewBox.h = bbox.h + 2 * padding ∧
    (exportSvg bbox orig).width = (exportSvg bbox orig).viewBox.w ∧
    (exportSvg bbox orig).height = (exportSvg bbox orig).viewBox.h ∧
    (exportSvg bbox orig).viewBox.x = bbox.x - padding ∧
    (exportSvg bbox orig).viewBox.y = bbox.y - padding ∧
    bbox.w + 2 * padding ≤ (exportSvg bbox orig).viewBox.w ∧
    bbox.h + 2 * padding ≤ (exportSvg bbox orig).viewBox.h ∧
    (exportSvg bbox orig).children
      = SvgChild.bg (exportSvg bbox orig).viewBox ("#ffffff".toList) :: orig := by
  unfold exportSvg
  refine ⟨by ring, by ring, rfl, rfl, rfl, rfl, by simp [mul_comm], by simp [mul_comm], rfl⟩

/-- C9: starting from an idle state, the in-flight flag is false again when
the invocation ends, on every path — guarded no-op, missing image node,
renderer exception, upload failure, insertion failure, or success — so the
action is re-invocable. -/
theorem handleAddToDesign_clears_isLoading (env : Env) (s : AppState)
    (h : s.isLoading = false) :
    ((handleAddToDesign env s).1).isLoading = false := by
  obtain ⟨a, e, r, b, o, u, i⟩ := env
  cases a <;> cases e <;> cases r <;> cases u <;> cases i <;>
    simp [handleAddToDesign, h]

/-- C9 witness: the successful path at a concrete environment. -/
theorem handleAddToDesign_clears_isLoading_witness :
    ((handleAddToDesign
      { addElement := true, exportRefPresent := true, render := RenderResult.ok,
        bbox := ⟨0, 0, 100, 50⟩, origChildren := [], uploadOk := true, insertOk := true }
      { abcInput := "X:1\nCDE".toList, isLoading := false, error := none,
        hasValidTune := true }).1).isLoading = false :=
  handleAddToDesign_clears_isLoading _ _ rfl

/-- UTF-8 encoding of a single scalar value. -/
def utf8EncodeChar (c : Char) : List Nat :=
  let n := c.toNat
  if n < 0x80 then [n]
  else if n < 0x800 then [0xC0 + n / 64, 0x80 + n % 64]
  else if n < 0x10000 then
    [0xE0 + n / 4096, 0x80 + n / 64 % 64, 0x80 + n % 64]
  else
    [0xF0 + n / 262144, 0x80 + n / 4096 % 64, 0x80 + n / 64 % 64, 0x80 + n % 64]

/-- UTF-8 encoding of a string. -/
def utf8Encode : List Char → List Nat
  | [] => []
  | c :: cs => utf8EncodeChar c ++ utf8Encode cs

/-- UTF-8 decoding, one byte at a time: the state holds the scalar value
accumulated so far and the number of continuation bytes still expected. -/
def utf8DecodeAux : Option (Nat × Nat) → List Nat → Option (List Char)
  | none, [] => some []
  | some _, [] => none
  | none, b :: rest =>
    if b < 128 then (utf8DecodeAux none rest).map (fun cs => Char.ofNat b :: cs)
    else if b < 192 then none
    else if b < 224 then utf8DecodeAux (some (b - 192, 1)) rest
    else if b < 240 then utf8DecodeAux (some (b - 224, 2)) rest
    else if b < 248 then utf8DecodeAux (some (b - 240, 3)) rest
    else none
  | some (acc, k), b :: rest =>
    if 128 ≤ b ∧ b < 192 then
      if k = 1 then
        (utf8DecodeAux none rest).map (fun cs => Char.ofNat (acc * 64 + (b - 128)) :: cs)
      else utf8DecodeAux (some (acc * 64 + (b - 128), k - 1)) rest
    else none

/-- UTF-8 decoding: inverse of `utf8Encode`, rejecting malformed input. -/
def utf8Decode (bytes : List Nat) : Option (List Char) :=
  utf8DecodeAux none bytes

/-- Upper-case hexadecimal digit, as emitted by `encodeURIComponent`. -/
def hexDigitChar (n : Nat) : Char :=
  if n < 10 then Char.ofNat ('0'.toNat + n) else Char.ofNat ('A'.toNat + (n - 10))

/-- Two-digit upper-case hexadecimal form of a byte. -/
def byteToHex (b : Nat) : List Char :=
  [hexDigitChar (b / 16), hexDigitChar (b % 16)]

/-- Hexadecimal digit value (upper or lower case), as read by `unescape`. -/
def hexVal (c : Char) : Option Nat :=
  let n := c.toNat
  if 48 ≤ n ∧ n ≤ 57 then some (n - 48)
  else if 65 ≤ n ∧ n ≤ 70 then some (n - 65 + 10)
  else if 97 ≤ n ∧ n ≤ 102 then some (n - 97 + 10)
  else none

/-- The characters `encodeURIComponent` leaves unescaped:
`A–Z a–z 0–9 - _ . ! ~ * ' ( )`. -/
def isUnreserved (c : Char) : Bool :=
  let n := c.toNat
  (decide (65 ≤ n) && decide (n ≤ 90)) || (decide (97 ≤ n) && decide (n ≤ 122)) ||
    (decide (48 ≤ n) && decide (n ≤ 57)) ||
    n == 45 || n == 95 || n == 46 || n == 33 || n == 126 || n == 42 ||
    n == 39 || n == 40 || n == 41

/-- Percent-escape a byte sequence, `%XY` per byte. -/
def escapeBytes : List Nat → List Char
  | [] => []
  | b :: bs => '%' :: byteToHex b ++ escapeBytes bs

/-- `encodeURIComponent` on one character: kept verbatim when unreserved,
otherwise every UTF-8 byte is percent-escaped. -/
def encodeURIComponentChar (c : Char) : List Char :=
  if isUnreserved c then [c] else escapeBytes (utf8EncodeChar c)

/-- `encodeURIComponent`. -/
def encodeURIComponent : List Char → List Char
  | [] => []
  | c :: cs => encodeURIComponentChar c ++ encodeURIComponent cs

/-- `unescape`: decode `%uXXXX` and `%XX` escapes, copy everything else. -/
def unescape : List Char → List Char
  | [] => []
  | c :: rest =>
    if c = '%' then
      match rest with
      | a :: b :: rest2 =>
        if a = 'u' then
          match rest2 with
          | e :: d :: f :: rest3 =>
            match hexVal b, hexVal e, hexVal d, hexVal f with
            | some x1, some x2, some x3, some x4 =>
                Char.ofNat (4096 * x1 + 256 * x2 + 16 * x3 + x4) :: unescape rest3
            | _, _, _, _ => c :: unescape (a :: b :: e :: d :: f :: rest3)
          | [e, d] => c :: unescape (a :: b :: [e, d])
          | [e] => c :: unescape (a :: b :: [e])
          | [] => c :: unescape (a :: b :: [])
        else
          match hexVal a, hexVal b with
          | some x, some y => Char.ofNat (16 * x + y) :: unescape rest2
          | _, _ => c :: unescape (a :: b :: rest2)
      | [a] => c :: unescape [a]
      | [] => [c]
    else c :: unescape rest
  termination_by l => l.length
  decreasing_by all_goals (simp_all; try omega)

/-- A byte viewed as a latin-1 character. -/
def byteChar (b : Nat) : Char := Char.ofNat b

/-- Base64 alphabet character of a sextet. -/
def sextetChar (n : Nat) : Char :=
  if n < 26 then Char.ofNat ('A'.toNat + n)
  else if n < 52 then Char.ofNat ('a'.toNat + (n - 26))
  else if n < 62 then Char.ofNat ('0'.toNat + (n - 52))
  else if n = 62 then '+'
  else '/'

/-- Base64 alphabet value of a character. -/
def sextetVal (c : Char) : Option Nat :=
  let n := c.toNat
  if 65 ≤ n ∧ n ≤ 90 then some (n - 65)
  else if 97 ≤ n ∧ n ≤ 122 then some (n - 97 + 26)
  else if 48 ≤ n ∧ n ≤ 57 then some (n - 48 + 52)
  else if n = 43 then some 62
  else if n = 47 then some 63
  else none

/-- Base64 encoding of a byte sequence, with `=` padding. -/
def base64Encode : List Nat → List Char
  | b1 :: b2 :: b3 :: rest =>
      sextetChar (b1 / 4) :: sextetChar (b1 % 4 * 16 + b2 / 16) ::
        sextetChar (b2 % 16 * 4 + b3 / 64) :: sextetChar (b3 % 64) ::
        base64Encode rest
  | [b1, b2] =>
      [sextetChar (b1 / 4), sextetChar (b1 % 4 * 16 + b2 / 16),
        sextetChar (b2 % 16 * 4), '=']
  | [b1] =>
      [sextetChar (b1 / 4), sextetChar (b1 % 4 * 16), '=', '=']
  | [] => []

/-- `btoa`: base64 of a latin-1 string; fails beyond U+00FF like the host
function throwing. -/
def btoa (s : List Char) : Option (List Char) :=
  if s.all (fun c => decide (c.toNat < 256)) then
    some (base64Encode (s.map Char.toNat))
  else none

/-- Base64 decoding: inverse of `base64Encode`. -/
def base64Decode : List Char → Option (List Nat)
  | c1 :: c2 :: c3 :: c4 :: rest =>
      match sextetVal c1, sextetVal c2 with
      | some s1, some s2 =>
        if c3 = '=' then
          if c4 = '=' ∧ rest = [] then some [s1 * 4 + s2 / 16] else none
        else
          match sextetVal c3 with
          | some s3 =>
            if c4 = '=' then
              if rest = [] then
                some [s1 * 4 + s2 / 16, s2 % 16 * 16 + s3 / 4]
              else none
            else
              match sextetVal c4, base64Decode rest with
              | some s4, some bs =>
                  some ((s1 * 4 + s2 / 16) :: (s2 % 16 * 16 + s3 / 4) ::
                    (s3 % 4 * 64 + s4) :: bs)
              | _, _ => none
          | none => none
      | _, _ => none
  | [] => some []
  | _ => none

theorem char_toNat_lt (c : Char) : c.toNat < 1114112 := by
  rcases c.valid with h | h
  · exact Nat.lt_trans h (by omega)
  · exact h.2

theorem toNat_byteChar (b : Nat) (h : b < 55296) : (byteChar b).toNat = b := by
  have hv : b.isValidChar := Or.inl h
  show (Char.ofNat b).toNat = b
  rw [Char.ofNat, dif_pos hv]
  simp [Char.ofNatAux, Char.toNat, UInt32.toNat]

theorem utf8EncodeChar_lt (c : Char) : ∀ b ∈ utf8EncodeChar c, b < 256 := by
  intro b hb
  have hc := char_toNat_lt c
  simp only [utf8EncodeChar] at hb
  split at hb
  · simp at hb
    omega
  · split at hb
    · simp at hb
      rcases hb with rfl | rfl <;> omega
    · split at hb
      · simp at hb
        rcases hb with rfl | rfl | rfl <;> omega
      · simp at hb
        rcases hb with rfl | rfl | rfl | rfl <;> omega

theorem utf8Encode_lt (s : List Char) : ∀ b ∈ utf8Encode s, b < 256 := by
  induction s with
  | nil => simp [utf8Encode]
  | cons c cs ih =>
    intro b hb
    rcases List.mem_append.mp hb with h | h
    · exact utf8EncodeChar_lt c b h
    · exact ih b h

theorem hexVal_hexDigitChar : ∀ n : Nat, n < 16 → hexVal (hexDigitChar n) = some n := by
  decide

theorem hexDigitChar_ne_u : ∀ n : Nat, n < 16 → ¬ hexDigitChar n = 'u' := by
  decide

theorem sextetVal_sextetChar : ∀ n : Nat, n < 64 → sextetVal (sextetChar n) = some n := by
  decide

theorem sextetChar_ne_pad : ∀ n : Nat, n < 64 → ¬ sextetChar n = '=' := by
  decide

theorem utf8Decode_encodeChar (c : Char) (rest : List Nat) :
    utf8DecodeAux none (utf8EncodeChar c ++ rest)
      = (utf8DecodeAux none rest).map (fun cs => c :: cs) := by
  have hc := char_toNat_lt c
  by_cases h1 : c.toNat < 128
  · have henc : utf8EncodeChar c = [c.toNat] := by
      simp only [utf8EncodeChar]
      rw [if_pos h1]
    rw [henc, List.cons_append, List.nil_append]
    rw [utf8DecodeAux]
    rw [if_pos h1, Char.ofNat_toNat]
  · by_cases h2 : c.toNat < 2048
    · have henc : utf8EncodeChar c = [192 + c.toNat / 64, 128 + c.toNat % 64] := by
        simp only [utf8EncodeChar]
        rw [if_neg h1, if_pos h2]
      rw [henc, List.cons_append, List.cons_append, List.nil_append]
      rw [utf8DecodeAux]
      rw [if_neg (by omega), if_neg (by omega), if_pos (by omega)]
      rw [utf8DecodeAux]
      rw [if_pos (show (128:Nat) ≤ 128 + c.toNat % 64 ∧ 128 + c.toNat % 64 < 192 by omega),
        if_pos rfl]
      have harith : (192 + c.toNat / 64 - 192) * 64 + (128 + c.toNat % 64 - 128)
          = c.toNat := by omega
      rw [harith, Char.ofNat_toNat]
    · by_cases h3 : c.toNat < 65536
      · have henc : utf8EncodeChar c
            = [224 + c.toNat / 4096, 128 + c.toNat / 64 % 64, 128 + c.toNat % 64] := by
          simp only [utf8EncodeChar]
          rw [if_neg h1, if_neg h2, if_pos h3]
        rw [henc, List.cons_append, List.cons_append, List.cons_append, List.nil_append]
        rw [utf8DecodeAux]
        rw [if_neg (by omega), if_neg (by omega), if_neg (by omega), if_pos (by omega)]
        rw [utf8DecodeAux]
        rw [if_pos (show (128:Nat) ≤ 128 + c.toNat / 64 % 64
            ∧ 128 + c.toNat / 64 % 64 < 192 by omega),
          if_neg (by omega)]
        rw [utf8DecodeAux]
        rw [if_pos (show (128:Nat) ≤ 128 + c.toNat % 64 ∧ 128 + c.toNat % 64 < 192 by omega),
          if_pos (by omega)]
        have harith : ((224 + c.toNat / 4096 - 224) * 64 + (128 + c.toNat / 64 % 64 - 128)) * 64
            + (128 + c.toNat % 64 - 128) = c.toNat := by omega
        rw [harith, Char.ofNat_toNat]
      · have henc : utf8EncodeChar c
            = [240 + c.toNat / 262144, 128 + c.toNat / 4096 % 64,
                128 + c.toNat / 64 % 64, 128 + c.toNat % 64] := by
          simp only [utf8EncodeChar]
          rw [if_neg h1, if_neg h2, if_neg h3]
        rw [henc, List.cons_append, List.cons_append, List.cons_append,
          List.cons_append, List.nil_append]
        rw [utf8DecodeAux]
        rw [if_neg (by omega), if_neg (by omega), if_neg (by omega), if_neg (by omega),
          if_pos (by omega)]
        rw [utf8DecodeAux]
        rw [if_pos (show (128:Nat) ≤ 128 + c.toNat / 4096 % 64
            ∧ 128 + c.toNat / 4096 % 64 < 192 by omega),
          if_neg (by omega)]
        rw [utf8DecodeAux]
        rw [if_pos (show (128:Nat) ≤ 128 + c.toNat / 64 % 64
            ∧ 128 + c.toNat / 64 % 64 < 192 by omega),
          if_neg (by omega)]
        rw [utf8DecodeAux]
        rw [if_pos (show (128:Nat) ≤ 128 + c.toNat % 64 ∧ 128 + c.toNat % 64 < 192 by omega),
          if_pos (by omega)]
        have harith : (((240 + c.toNat / 262144 - 240) * 64 + (128 + c.toNat / 4096 % 64 - 128))
              * 64 + (128 + c.toNat / 64 % 64 - 128)) * 64 + (128 + c.toNat % 64 - 128)
            = c.toNat := by omega
        rw [harith, Char.ofNat_toNat]

theorem utf8Decode_utf8Encode (s : List Char) :
    utf8Decode (utf8Encode s) = some s := by
  show utf8DecodeAux none (utf8Encode s) = some s
  induction s with
  | nil => rfl
  | cons c cs ih =>
    show utf8DecodeAux none (utf8EncodeChar c ++ utf8Encode cs) = _
    rw [utf8Decode_encodeChar, ih]
    rfl

theorem unescape_lit (c : Char) (h : ¬ c = '%') (rest : List Char) :
    unescape (c :: rest) = c :: unescape rest := by
  rw [unescape.eq_def]
  simp only []
  rw [if_neg h]

theorem unescape_pct (x y : Nat) (hx : x < 16) (hy : y < 16) (rest : List Char) :
    unescape ('%' :: hexDigitChar x :: hexDigitChar y :: rest)
      = Char.ofNat (16 * x + y) :: unescape rest := by
  have hvx := hexVal_hexDigitChar x hx
  have hvy := hexVal_hexDigitChar y hy
  have hne : ¬ hexDigitChar x = 'u' := hexDigitChar_ne_u x hx
  rw [unescape.eq_def]
  simp only [if_true]
  rw [if_neg hne]
  simp only [hvx, hvy]

theorem unescape_escapeBytes (bs : List Nat) (h : ∀ b ∈ bs, b < 256) (rest : List Char) :
    unescape (escapeBytes bs ++ rest) = bs.map byteChar ++ unescape rest := by
  induction bs with
  | nil => simp [escapeBytes]
  | cons b bs ih =>
    have hb : b < 256 := h b (by simp)
    have hsh : escapeBytes (b :: bs) ++ rest
        = '%' :: hexDigitChar (b / 16) :: hexDigitChar (b % 16) :: (escapeBytes bs ++ rest) := by
      simp [escapeBytes, byteToHex]
    rw [hsh, unescape_pct _ _ (by omega) (by omega), ih (fun x hx => h x (by simp [hx]))]
    have harith : 16 * (b / 16) + b % 16 = b := by omega
    rw [harith]
    rfl

theorem unreserved_ascii (c : Char) (h : isUnreserved c = true) : c.toNat < 128 := by
  simp only [isUnreserved, Bool.or_eq_true, Bool.and_eq_true, decide_eq_true_eq,
    beq_iff_eq] at h
  omega

theorem unreserved_ne_pct (c : Char) (h : isUnreserved c = true) : ¬ c = '%' := by
  intro hc
  subst hc
  exact absurd h (by decide)

theorem unescape_encodeChar (c : Char) (rest : List Char) :
    unescape (encodeURIComponentChar c ++ rest)
      = (utf8EncodeChar c).map byteChar ++ unescape rest := by
  by_cases h : isUnreserved c
  · have ha := unreserved_ascii c h
    have hp := unreserved_ne_pct c h
    have henc : encodeURIComponentChar c = [c] := by
      simp [encodeURIComponentChar, h]
    have hutf : utf8EncodeChar c = [c.toNat] := by
      simp only [utf8EncodeChar]
      rw [if_pos (by omega)]
    rw [henc, List.cons_append, List.nil_append, unescape_lit c hp, hutf]
    simp [byteChar, Char.ofNat_toNat]
  · have henc : encodeURIComponentChar c = escapeBytes (utf8EncodeChar c) := by
      simp [encodeURIComponentChar, h]
    rw [henc, unescape_escapeBytes _ (utf8EncodeChar_lt c) rest]

theorem unescape_encodeURIComponent (s : List Char) :
    unescape (encodeURIComponent s) = (utf8Encode s).map byteChar := by
  induction s with
  | nil =>
    rw [show encodeURIComponent [] = [] from rfl, unescape.eq_def]
    rfl
  | cons c cs ih =>
    show unescape (encodeURIComponentChar c ++ encodeURIComponent cs) = _
    rw [unescape_encodeChar, ih]
    show _ = (utf8EncodeChar c ++ utf8Encode cs).map byteChar
    rw [List.map_append]

theorem base64_roundtrip :
    ∀ bs : List Nat, (∀ b ∈ bs, b < 256) → base64Decode (base64Encode bs) = some bs
  | [], _ => by rfl
  | [b1], h => by
    have hb1 : b1 < 256 := h b1 (by simp)
    have e1 := sextetVal_sextetChar (b1 / 4) (by omega)
    have e2 := sextetVal_sextetChar (b1 % 4 * 16) (by omega)
    rw [show base64Encode [b1]
        = [sextetChar (b1 / 4), sextetChar (b1 % 4 * 16), '=', '='] from rfl]
    rw [base64Decode]
    simp only [e1, e2]
    simp only [if_true, and_self]
    simp only [Option.some.injEq, List.cons.injEq, and_true]
    omega
  | [b1, b2], h => by
    have hb1 : b1 < 256 := h b1 (by simp)
    have hb2 : b2 < 256 := h b2 (by simp)
    have e1 := sextetVal_sextetChar (b1 / 4) (by omega)
    have e2 := sextetVal_sextetChar (b1 % 4 * 16 + b2 / 16) (by omega)
    have e3 := sextetVal_sextetChar (b2 % 16 * 4) (by omega)
    have n3 := sextetChar_ne_pad (b2 % 16 * 4) (by omega)
    rw [show base64Encode [b1, b2]
        = [sextetChar (b1 / 4), sextetChar (b1 % 4 * 16 + b2 / 16),
            sextetChar (b2 % 16 * 4), '='] from rfl]
    rw [base64Decode]
    simp only [e1, e2, e3]
    rw [if_neg n3]
    simp only [if_true]
    simp only [Option.some.injEq, List.cons.injEq, and_true]
    constructor <;> omega
  | b1 :: b2 :: b3 :: rest, h => by
    have hb1 : b1 < 256 := h b1 (by simp)
    have hb2 : b2 < 256 := h b2 (by simp)
    have hb3 : b3 < 256 := h b3 (by simp)
    have e1 := sextetVal_sextetChar (b1 / 4) (by omega)
    have e2 := sextetVal_sextetChar (b1 % 4 * 16 + b2 / 16) (by omega)
    have e3 := sextetVal_sextetChar (b2 % 16 * 4 + b3 / 64) (by omega)
    have e4 := sextetVal_sextetChar (b3 % 64) (by omega)
    have n3 := sextetChar_ne_pad (b2 % 16 * 4 + b3 / 64) (by omega)
    have n4 := sextetChar_ne_pad (b3 % 64) (by omega)
    have ih := base64_roundtrip rest (fun b hb => h b (by simp [hb]))
    rw [show base64Encode (b1 :: b2 :: b3 :: rest)
        = sextetChar (b1 / 4) :: sextetChar (b1 % 4 * 16 + b2 / 16) ::
            sextetChar (b2 % 16 * 4 + b3 / 64) :: sextetChar (b3 % 64) ::
            base64Encode rest from rfl]
    rw [base64Decode]
    simp only [e1, e2, e3, e4, ih]
    rw [if_neg n3, if_neg n4]
    simp only [Option.some.injEq, List.cons.injEq]
    refine ⟨by omega, by omega, by omega, trivial⟩

theorem map_toNat_byteChar (bs : List Nat) (h : ∀ b ∈ bs, b < 256) :
    (bs.map byteChar).map Char.toNat = bs := by
  induction bs with
  | nil => rfl
  | cons b bs ih =>
    have hb : b < 256 := h b (by simp)
    simp only [List.map_cons]
    rw [toNat_byteChar b (by omega), ih (fun x hx => h x (by simp [hx]))]

theorem btoa_byteChars (bs : List Nat) (h : ∀ b ∈ bs, b < 256) :
    btoa (bs.map byteChar) = some (base64Encode bs) := by
  unfold btoa
  have hall : (bs.map byteChar).all (fun c => decide (c.toNat < 256)) = true := by
    rw [List.all_eq_true]
    intro c hc
    rcases List.mem_map.mp hc with ⟨b, hb, rfl⟩
    have hcn : (byteChar b).toNat = b := toNat_byteChar b (by have := h b hb; omega)
    rw [decide_eq_true_eq, hcn]
    exact h b hb
  rw [if_pos hall, map_toNat_byteChar bs h]

/-- C8: the encoding step round-trips the full text range: for every
serialized string, including non-ASCII text, base64-decoding the payload
produced by `btoa (unescape (encodeURIComponent s))` and interpreting the
bytes as UTF-8 yields exactly the original string. -/
theorem encode_roundtrip (s : List Char) :
    ∃ payload bytes,
      btoa (unescape (encodeURIComponent s)) = some payload ∧
      base64Decode payload = some bytes ∧
      utf8Decode bytes = some s := by
  refine ⟨base64Encode (utf8Encode s), utf8Encode s, ?_, ?_, ?_⟩
  · rw [unescape_encodeURIComponent]
    exact btoa_byteChars _ (utf8Encode_lt s)
  · exact base64_roundtrip _ (utf8Encode_lt s)
  · exact utf8Decode_utf8Encode s
